import Mathlib

/-!
Verification development for the CircuitVerse leaderboard generator.

The development shallowly embeds the aggregation core of the repository:

* `Leaderboard` models the canonical generator (the script holding
  `ghSearch`, `searchByDateChunks`, `addActivity`, `generateYear`,
  `derivePeriod`): scoring, bot filtering, per-contributor aggregation,
  date-chunked fetching with throttling, and period derivation.
* `GenLB` models the per-period generator in
  `src/scripts/generateLeaderboard.ts`, whose `addActivity` differs from the
  canonical one (it appends one `daily_activity` element per event and
  ignores events with an undefined timestamp).
* `Freshness` models the stale-while-revalidate freshness classifier, which
  is documented (README / spec) but whose source file is not in the tree.

Timestamps are UTC epoch milliseconds (`Nat`); the ISO calendar-date portion
of a timestamp (`date.split("T")[0]` in the source) is abstracted as the day
number `ms / 86400000`, which identifies the UTC date uniquely.  String
values (logins, titles) are kept as Lean `String`s.
-/

namespace Leaderboard

/-! ### Utilities -/

/-- Milliseconds per UTC day. -/
def msPerDay : Nat := 86400000

/-- UTC calendar day of an epoch-millisecond timestamp: abstraction of
`date.split("T")[0]` on an ISO-8601 UTC string. -/
def tsDay (ms : Nat) : Nat := ms / msPerDay

/-- `String.endsWith`, computed on the underlying character lists so that it
evaluates by kernel reduction. -/
def strEndsWith (s suf : String) : Bool :=
  List.isSuffixOf suf.toList s.toList

/-- Character-list whitespace collapse: every maximal run of whitespace
becomes a single space (`.replace(/\s+/g, " ")`).  The boolean records
whether the previous character was whitespace. -/
def collapseWsAux : List Char → Bool → List Char
  | [], _ => []
  | c :: rest, prevWs =>
    if c.isWhitespace then
      if prevWs then collapseWsAux rest true
      else ' ' :: collapseWsAux rest true
    else c :: collapseWsAux rest false

/-- `.trim()` on a character list. -/
def trimChars (l : List Char) : List Char :=
  ((l.dropWhile Char.isWhitespace).reverse.dropWhile Char.isWhitespace).reverse

/-- `sanitizeTitle`: `null`/`undefined`/empty titles (all falsy in JS) map to
`null`; otherwise brackets are removed, colons become `" - "`, whitespace is
collapsed and the result is trimmed. -/
def sanitizeTitle (title : Option String) : Option String :=
  match title with
  | none => none
  | some t =>
    if t = "" then none
    else
      some (String.mk (trimChars (collapseWsAux
        (((t.toList.filter (fun c => decide (c ≠ '[' ∧ c ≠ ']'))).flatMap
          (fun c => if c = ':' then [' ', '-', ' '] else [c]))) false)))

/-! ### Scoring -/

def POINTS_PR_OPENED : Nat := 2
def POINTS_PR_MERGED : Nat := 5
def POINTS_ISSUE_OPENED : Nat := 1

/-! ### Types -/

/-- The closed set of activity kinds; the source uses the string literals
`"PR opened"`, `"PR merged"`, `"Issue opened"`. -/
inductive AType
  | prOpened
  | prMerged
  | issueOpened
  deriving DecidableEq, Repr

/-- One bucket of `activity_breakdown`. -/
structure Bucket where
  count : Nat
  points : Nat
  deriving DecidableEq, Repr

/-- One element of `daily_activity`. -/
structure Daily where
  date : Nat
  count : Nat
  points : Nat
  deriving DecidableEq, Repr

/-- One element of `raw_activities`. -/
structure RawActivity where
  type : AType
  occured_at : Nat
  title : Option String
  link : Option String
  points : Nat
  deriving DecidableEq, Repr

/-- `UserEntry`: one per distinct contributor.  `activity_breakdown` is the
insertion-ordered record `Record<string, {count, points}>`. -/
structure UserEntry where
  username : String
  name : Option String
  avatar_url : Option String
  role : Option String
  total_points : Nat
  activity_breakdown : List (AType × Bucket)
  daily_activity : List Daily
  raw_activities : List RawActivity
  deriving DecidableEq, Repr

/-- The `user` object of a search-API item.  `login` is declared as present
in the source's `GitHubItem` type but `isBotUser` guards against its
absence, so it is optional here. -/
structure GHUser where
  login : Option String
  name : Option String
  avatar_url : Option String
  type : Option String
  deriving DecidableEq, Repr

/-- One search-API result. -/
structure GitHubItem where
  user : GHUser
  created_at : Nat
  closed_at : Nat
  title : Option String
  html_url : Option String
  deriving DecidableEq, Repr

/-! ### Filters -/

/-- `isBotUser`: absent (or empty, which is falsy in JS) login, a `type`
field that is set (non-empty) and differs from `"User"`, or a login ending
in `"[bot]"`. -/
def isBotUser (u : GHUser) : Bool :=
  match u.login with
  | none => true
  | some l =>
    if l = "" then true
    else if (match u.type with
             | some t => if t = "" then false else decide (t ≠ "User")
             | none => false) then true
    else strEndsWith l "[bot]"

/-! ### Aggregation helpers (`ensureUser` / `addActivity`) -/

/-- The entry `ensureUser` creates on first sight of a login. -/
def freshEntry (u : GHUser) (login : String) : UserEntry :=
  { username := login
    name := u.name
    avatar_url := u.avatar_url
    role := some "Contributor"
    total_points := 0
    activity_breakdown := []
    daily_activity := []
    raw_activities := [] }

/-- `entry.activity_breakdown[type] ??= {count:0, points:0}` followed by the
two increments, on the insertion-ordered record.  Generic in the key type so
it also serves the string-keyed record of the per-period generator. -/
def bumpBreakdown {κ : Type} [DecidableEq κ] :
    List (κ × Bucket) → κ → Nat → List (κ × Bucket)
  | [], ty, p => [(ty, ⟨ 1, p⟩)]
  | (t, b) :: rest, ty, p =>
    if t = ty then (t, ⟨ b.count + 1, b.points + p⟩) :: rest
    else (t, b) :: bumpBreakdown rest ty p

/-- Find-or-create of the `daily_activity` element for `day`: the first
element with that date is incremented, otherwise a fresh element is pushed
at the end. -/
def bumpDaily : List Daily → Nat → Nat → List Daily
  | [], day, p => [⟨ day, 1, p⟩]
  | d :: rest, day, p =>
    if d.date = day then ⟨ d.date, d.count + 1, d.points + p⟩ :: rest
    else d :: bumpDaily rest day p

/-- `addActivity` of the canonical generator: bump the total, the breakdown
bucket and the daily bucket, and append the raw event (with sanitized
title). -/
def addActivity (entry : UserEntry) (ty : AType) (date : Nat) (points : Nat)
    (title link : Option String) : UserEntry :=
  { entry with
    total_points := entry.total_points + points
    activity_breakdown := bumpBreakdown entry.activity_breakdown ty points
    daily_activity := bumpDaily entry.daily_activity (tsDay date) points
    raw_activities := entry.raw_activities ++
      [{ type := ty
         occured_at := date
         title := sanitizeTitle title
         link := link
         points := points }] }

/-! ### The descending sort

The source sorts with the stable JS comparator
`(a, b) => b.total_points - a.total_points`; it is modelled as a stable
insertion sort on a `Nat` key, largest first. -/

def insertDesc {α : Type} (key : α → Nat) (x : α) : List α → List α
  | [] => [x]
  | y :: ys => if key x ≤ key y then y :: insertDesc key x ys else x :: y :: ys

def sortDesc {α : Type} (key : α → Nat) : List α → List α
  | [] => []
  | x :: xs => insertDesc key x (sortDesc key xs)

/-! ### The year generator -/

/-- One iteration of a `for`-loop body in `generateYear`: `ensureUser`
followed by `addActivity`.  The insertion-ordered `Map` is modelled as a
list keyed by `username`; a fresh entry is appended at the end. -/
def applyItem (users : List UserEntry) (ty : AType) (points : Nat)
    (date : Nat) (it : GitHubItem) : List UserEntry :=
  match it.user.login with
  | none => users
  | some login =>
    if users.any (fun e => decide (e.username = login)) then
      users.map (fun e =>
        if e.username = login then addActivity e ty date points it.title it.html_url
        else e)
    else users ++ [addActivity (freshEntry it.user login) ty date points it.title it.html_url]

/-- One category loop of `generateYear`: skip bot users, fold the rest. -/
def foldItems (ty : AType) (points : Nat) (dateOf : GitHubItem → Nat)
    (users : List UserEntry) (items : List GitHubItem) : List UserEntry :=
  items.foldl
    (fun us it => if isBotUser it.user then us else applyItem us ty points (dateOf it) it)
    users

/-- `generateYear`, as a function of the three fetched item lists: PRs
opened (scored on `created_at`), PRs merged (scored on `closed_at`), issues
opened; then drop zero-point entries and sort descending by
`total_points`.  File output and document metadata are beyond the model. -/
def generateYear (prsOpened prsMerged issuesOpened : List GitHubItem) :
    List UserEntry :=
  let u1 := foldItems .prOpened POINTS_PR_OPENED (fun it => it.created_at) [] prsOpened
  let u2 := foldItems .prMerged POINTS_PR_MERGED (fun it => it.closed_at) u1 prsMerged
  let u3 := foldItems .issueOpened POINTS_ISSUE_OPENED (fun it => it.created_at) u2 issuesOpened
  sortDesc (fun e => e.total_points) (u3.filter (fun e => decide (0 < e.total_points)))

/-! ### Period derivation (`derivePeriod`) -/

/-- One element of a derived entry's `activities` list. -/
structure DerivedActivity where
  type : AType
  title : Option String
  occured_at : Nat
  link : Option String
  points : Nat
  contributor : String
  contributor_name : Option String
  contributor_avatar_url : Option String
  deriving DecidableEq, Repr

/-- One contributor entry of a derived period document. -/
structure DerivedEntry where
  username : String
  name : Option String
  avatar_url : Option String
  role : Option String
  total_points : Nat
  activity_breakdown : List (AType × Bucket)
  daily_activity : List Daily
  activities : List DerivedActivity
  deriving DecidableEq, Repr

/-- One `for (const a of acts)` iteration of `derivePeriod`: bump the
total, the breakdown record and the daily record. -/
def rebuildStep (acc : Nat × List (AType × Bucket) × List Daily)
    (a : RawActivity) : Nat × List (AType × Bucket) × List Daily :=
  (acc.1 + a.points,
   bumpBreakdown acc.2.1 a.type a.points,
   bumpDaily acc.2.2 (tsDay a.occured_at) a.points)

/-- The `for (const a of acts)` loop of `derivePeriod`: rebuild the total,
the breakdown record and the daily record from scratch. -/
def rebuildTotals (acts : List RawActivity) :
    Nat × List (AType × Bucket) × List Daily :=
  acts.foldl rebuildStep (0, [], [])

/-- The projection of a raw activity into a derived entry's `activities`. -/
def toDerivedActivity (e : UserEntry) (a : RawActivity) : DerivedActivity :=
  { type := a.type
    title := a.title
    occured_at := a.occured_at
    link := a.link
    points := a.points
    contributor := e.username
    contributor_name := e.name
    contributor_avatar_url := e.avatar_url }

/-- The per-entry body of `derivePeriod`: keep only activities at/after the
cutoff, drop the contributor when none remain, otherwise rebuild every
aggregate from the filtered list. -/
def deriveEntry (cutoff : Nat) (e : UserEntry) : Option DerivedEntry :=
  let acts := e.raw_activities.filter (fun a => decide (cutoff ≤ a.occured_at))
  if acts.isEmpty then none
  else
    let t := rebuildTotals acts
    some
      { username := e.username
        name := e.name
        avatar_url := e.avatar_url
        role := e.role
        total_points := t.1
        activity_breakdown := t.2.1
        daily_activity := t.2.2
        activities := acts.map (toDerivedActivity e) }

/-- `derivePeriod`, on the canonical entry list and a cutoff timestamp
(`daysAgo(days)` in the source): map, drop the `null`s, sort descending by
the rebuilt totals. -/
def derivePeriod (entries : List UserEntry) (cutoff : Nat) : List DerivedEntry :=
  sortDesc (fun d => d.total_points) (entries.filterMap (deriveEntry cutoff))

/-! ### Date-chunked fetching (`ghSearch` / `searchByDateChunks`)

The HTTP layer is embedded as a pure oracle `resp` mapping each search
request to its outcome: `.ok items` for a 2xx response, `.error e` for a
non-success status (the thrown `GitHub API ${status}: ${text}`).  Each call
additionally emits a trace of actions (the request itself, and the
mandatory `sleep(2500)` that follows a successful response), so that
throttling behaviour is visible in the model.  Pagination carries explicit
fuel: the source's `while (true)` loop has no intrinsic bound, and all
theorems below hold for every fuel value. -/

/-- The error thrown on a non-success HTTP status: it carries the status and
the response body. -/
structure HttpError where
  status : Nat
  body : String
  deriving DecidableEq, Repr

/-- One search request: date sub-range `[qfrom, qto)` plus page number. -/
structure Query where
  qfrom : Nat
  qto : Nat
  page : Nat
  deriving DecidableEq, Repr

/-- Observable actions of the fetcher. -/
inductive Action
  | http (q : Query)
  | sleep (ms : Nat)
  deriving DecidableEq, Repr

/-- The type of the HTTP oracle. -/
abbrev Resp := Query → Except HttpError (List GitHubItem)

/-- `ghSearch`: on a non-success status the error is thrown at once — the
throttle line is never reached; on success the mandatory 2.5 s sleep
follows the call. -/
def ghSearch (resp : Resp) (q : Query) :
    List Action × Except HttpError (List GitHubItem) :=
  match resp q with
  | .error e => ([.http q], .error e)
  | .ok items => ([.http q, .sleep 2500], .ok items)

/-- The chunk sequence produced by the `while (cursor < end)` loop:
`next = cursor + step`, `to = next > end ? end : next`, emit
`(cursor, to)`, continue from `to`.  Structured on fuel; `end - start` fuel
suffices whenever `step > 0`. -/
def chunksAux (step : Nat) : Nat → Nat → Nat → List (Nat × Nat)
  | 0, _, _ => []
  | fuel + 1, cursor, stop =>
    if cursor < stop then
      let next := cursor + step
      let upto := if stop < next then stop else next
      (cursor, upto) :: chunksAux step fuel upto stop
    else []

/-- The date sub-ranges `searchByDateChunks` queries for `[start, stop)`. -/
def searchChunks (start stop step : Nat) : List (Nat × Nat) :=
  chunksAux step (stop - start) start stop

/-- The inner pagination loop: request pages `1, 2, …` of one sub-range,
concatenating items, until a page holds fewer than 100 items (a missing
`items` field is the empty page).  A thrown error aborts at once. -/
def fetchPages (resp : Resp) (qfrom qto : Nat) :
    Nat → Nat → List Action × Except HttpError (List GitHubItem)
  | _, 0 => ([], .ok [])
  | page, fuel + 1 =>
    match ghSearch resp ⟨ qfrom, qto, page⟩ with
    | (tr, .error e) => (tr, .error e)
    | (tr, .ok items) =>
      if items.length < 100 then (tr, .ok items)
      else
        let r := fetchPages resp qfrom qto (page + 1) fuel
        (tr ++ r.1, r.2.map (fun rest => items ++ rest))

/-- The outer loop over sub-ranges; each sub-range starts at page 1. -/
def fetchChunks (resp : Resp) (fuel : Nat) :
    List (Nat × Nat) → List Action × Except HttpError (List GitHubItem)
  | [] => ([], .ok [])
  | c :: rest =>
    match fetchPages resp c.1 c.2 1 fuel with
    | (tr, .error e) => (tr, .error e)
    | (tr, .ok items) =>
      let r := fetchChunks resp fuel rest
      (tr ++ r.1, r.2.map (fun more => items ++ more))

/-- `searchByDateChunks`: chunk `[start, stop)` by `step`, fetch every
sub-range, concatenate.  Returns the action trace and the overall result. -/
def searchByDateChunks (resp : Resp) (start stop step fuel : Nat) :
    List Action × Except HttpError (List GitHubItem) :=
  fetchChunks resp fuel (searchChunks start stop step)

/-- The search requests an action trace contains. -/
def httpCalls (tr : List Action) : List Query :=
  tr.filterMap (fun a => match a with | .http q => some q | .sleep _ => none)

/-! ### Measures and invariants used by the theorems below -/

/-- Sum of points over the buckets of a breakdown record. -/
def sumBd {κ : Type} (bd : List (κ × Bucket)) : Nat :=
  (bd.map (fun b => b.2.points)).sum

/-- Sum of points over a raw-activity log. -/
def sumRaw (l : List RawActivity) : Nat :=
  (l.map (fun a => a.points)).sum

/-- Sum of points over a derived entry's activity list. -/
def sumActs (l : List DerivedActivity) : Nat :=
  (l.map (fun a => a.points)).sum

/-- The points invariant: the total equals the breakdown sum and the raw-log
sum. -/
def pointsInv (e : UserEntry) : Prop :=
  e.total_points = sumBd e.activity_breakdown ∧
  e.total_points = sumRaw e.raw_activities

/-- First `daily_activity` element carrying a given date
(`entry.daily_activity.find((d) => d.date === day)`). -/
def dayLookup : List Daily → Nat → Option Daily
  | [], _ => none
  | x :: rest, d => if x.date = d then some x else dayLookup rest d

/-- The date column of a `daily_activity` list. -/
def dailyDates (l : List Daily) : List Nat :=
  l.map (fun x => x.date)

/-- The daily invariant: at most one `daily_activity` element per calendar
date. -/
def dailyInv (e : UserEntry) : Prop :=
  (dailyDates e.daily_activity).Nodup

/-- Every request in the trace succeeded and is immediately followed by the
mandatory 2.5 s sleep. -/
def ShapeOk (resp : Resp) (tr : List Action) : Prop :=
  ∀ i q, tr[i]? = some (Action.http q) →
    tr[i + 1]? = some (Action.sleep 2500) ∧ (resp q).isOk = true

/-- Relates the trace of a fetch to its result: a successful fetch has a
`ShapeOk` trace; a failed one has a `ShapeOk` prefix followed by exactly the
failing request (no sleep after it, nothing else either), and the error
returned is that request's error. -/
def FetchShape (resp : Resp)
    (res : List Action × Except HttpError (List GitHubItem)) : Prop :=
  (∃ items, res.2 = .ok items ∧ ShapeOk resp res.1) ∨
  (∃ e tr q, res.2 = .error e ∧ res.1 = tr ++ [Action.http q] ∧
    ShapeOk resp tr ∧ resp q = .error e)

end Leaderboard

namespace GenLB

/-!
Model of the per-period generator `src/scripts/generateLeaderboard.ts`.
Its `UserEntry` has no `raw_activities` log, its breakdown record is keyed
by the raw type string, its `addActivity` ignores events with an undefined
timestamp and appends one `daily_activity` element per event, and its
`isBotUser` checks the account type before the login.  The `activities`
output array and file output are beyond the model.
-/

/-- The hardcoded bot list of the script (declared but not consulted by
`isBotUser`). -/
def BOT_USERS : List String := ["dependabot[bot]", "github-actions[bot]"]

/-- `isBotUser` of the per-period generator: official `type` field first,
then the login fallback. -/
def isBotUser (u : Leaderboard.GHUser) : Bool :=
  if (match u.type with
      | some t => if t = "" then false else decide (t ≠ "User")
      | none => false) then true
  else
    match u.login with
    | none => true
    | some l => if l = "" then true else Leaderboard.strEndsWith l "[bot]"

/-- `UserEntry` of the per-period generator. -/
structure UserEntry where
  username : String
  name : Option String
  avatar_url : Option String
  role : Option String
  total_points : Nat
  activity_breakdown : List (String × Leaderboard.Bucket)
  daily_activity : List Leaderboard.Daily
  deriving DecidableEq, Repr

/-- One search-API item as this script consumes it: both timestamps may be
absent. -/
structure Item where
  user : Leaderboard.GHUser
  created_at : Option Nat
  closed_at : Option Nat
  deriving DecidableEq, Repr

/-- `addActivity` of the per-period generator: `if (!date) return;` leaves
the entry untouched; otherwise bump total and breakdown and push a fresh
`{date, count: 1, points}` element — same-day elements are not merged. -/
def addActivity (entry : UserEntry) (ty : String) (date : Option Nat)
    (points : Nat) : UserEntry :=
  match date with
  | none => entry
  | some d =>
    { entry with
      total_points := entry.total_points + points
      activity_breakdown := Leaderboard.bumpBreakdown entry.activity_breakdown ty points
      daily_activity := entry.daily_activity ++ [⟨ Leaderboard.tsDay d, 1, points⟩] }

/-- `ensureUser` followed by `addActivity`; the entry is created even when
the event's timestamp is absent. -/
def applyItem (users : List UserEntry) (ty : String) (points : Nat)
    (date : Option Nat) (u : Leaderboard.GHUser) : List UserEntry :=
  match u.login with
  | none => users
  | some login =>
    if users.any (fun e => decide (e.username = login)) then
      users.map (fun e =>
        if e.username = login then addActivity e ty date points else e)
    else
      users ++
        [addActivity
          { username := login
            name := u.name
            avatar_url := u.avatar_url
            role := some "Contributor"
            total_points := 0
            activity_breakdown := []
            daily_activity := [] } ty date points]

/-- One category loop of `generate`. -/
def foldItems (ty : String) (points : Nat) (dateOf : Item → Option Nat)
    (users : List UserEntry) (items : List Item) : List UserEntry :=
  items.foldl
    (fun us it =>
      if isBotUser it.user then us else applyItem us ty points (dateOf it) it.user)
    users

/-- The entry list of one `generate(period, days)` run, as a function of the
three fetched item lists. -/
def generate (prs merged issues : List Item) : List UserEntry :=
  let u1 := foldItems "PR opened" 2 (fun it => it.created_at) [] prs
  let u2 := foldItems "PR merged" 5 (fun it => it.closed_at) u1 merged
  let u3 := foldItems "Issue opened" 1 (fun it => it.created_at) u2 issues
  Leaderboard.sortDesc (fun e => e.total_points)
    (u3.filter (fun e => decide (0 < e.total_points)))

end GenLB

namespace Freshness

/-- The three cache states of the freshness controller. -/
inductive State
  | fresh
  | stale
  | expired
  deriving DecidableEq, Repr

/-- Modelled from the spec: the Freshness Controller (stale-while-revalidate
cache, spec §4.5) has no source file in the tree — only its behaviour is
documented.  Given TTL `ttl`, stale-ceiling `ceil` and the cached artifact's
age (`none` when no cache record exists), classify as `fresh` (age < TTL),
`stale` (TTL ≤ age < ceiling), `expired` (age ≥ ceiling or no record). -/
def classify (ttl ceil : Nat) (age : Option Nat) : State :=
  match age with
  | none => .expired
  | some a => if a < ttl then .fresh else if a < ceil then .stale else .expired

end Freshness

/-!
## Concrete sample data (used by the witnesses and counterexamples)
-/

/-- A human PR author. -/
def itAlice : Leaderboard.GitHubItem :=
  { user := { login := some "alice", name := some "Alice", avatar_url := none, type := some "User" }
    created_at := 864000005
    closed_at := 950400000
    title := none
    html_url := none }

/-- The single entry `generateYear [itAlice] [] []` produces. -/
def entryAlice : Leaderboard.UserEntry :=
  { username := "alice"
    name := some "Alice"
    avatar_url := none
    role := some "Contributor"
    total_points := 2
    activity_breakdown := [(Leaderboard.AType.prOpened, ⟨ 1, 2⟩)]
    daily_activity := [⟨ 10, 1, 2⟩]
    raw_activities :=
      [{ type := Leaderboard.AType.prOpened
         occured_at := 864000005
         title := none
         link := none
         points := 2 }] }

/-- The derived entry `derivePeriod [entryAlice] 50` produces. -/
def derivedAlice : Leaderboard.DerivedEntry :=
  { username := "alice"
    name := some "Alice"
    avatar_url := none
    role := some "Contributor"
    total_points := 2
    activity_breakdown := [(Leaderboard.AType.prOpened, ⟨ 1, 2⟩)]
    daily_activity := [⟨ 10, 1, 2⟩]
    activities :=
      [{ type := Leaderboard.AType.prOpened
         title := none
         occured_at := 864000005
         link := none
         points := 2
         contributor := "alice"
         contributor_name := some "Alice"
         contributor_avatar_url := none }] }

/-- A human PR author in the per-period generator's item shape. -/
def itBob : GenLB.Item :=
  { user := { login := some "bob", name := none, avatar_url := none, type := some "User" }
    created_at := some 100
    closed_at := none }

/-- The entry `GenLB.generate [itBob, itBob] [] []` produces: two same-day
events, hence two `daily_activity` elements with the same date. -/
def entryBob : GenLB.UserEntry :=
  { username := "bob"
    name := none
    avatar_url := none
    role := some "Contributor"
    total_points := 4
    activity_breakdown := [("PR opened", ⟨ 2, 4⟩)]
    daily_activity := [⟨ 0, 1, 2⟩, ⟨ 0, 1, 2⟩] }

/-- An oracle on which every request fails with a 403 response. -/
def respFail : Leaderboard.Resp :=
  fun _ => Except.error ⟨ 403, "rate limited"⟩

/-- An oracle on which every request succeeds with an empty page. -/
def respEmpty : Leaderboard.Resp :=
  fun _ => Except.ok []

/-!
## Helper lemmas
-/

namespace Leaderboard

theorem mem_insertDesc {α : Type} (key : α → Nat) (x a : α) :
    ∀ l : List α, a ∈ insertDesc key x l ↔ a = x ∨ a ∈ l := by
  intro l
  induction l with
  | nil => simp [insertDesc]
  | cons y ys ih =>
    by_cases h : key x ≤ key y
    · simp only [insertDesc, if_pos h, List.mem_cons, ih]
      tauto
    · simp only [insertDesc, if_neg h, List.mem_cons]

theorem mem_sortDesc {α : Type} (key : α → Nat) (a : α) :
    ∀ l : List α, a ∈ sortDesc key l ↔ a ∈ l := by
  intro l
  induction l with
  | nil => simp [sortDesc]
  | cons x xs ih => simp [sortDesc, mem_insertDesc, ih]

theorem pairwise_insertDesc {α : Type} (key : α → Nat) (x : α) :
    ∀ l : List α, l.Pairwise (fun a b => key b ≤ key a) →
      (insertDesc key x l).Pairwise (fun a b => key b ≤ key a) := by
  intro l
  induction l with
  | nil => intro _; simp [insertDesc]
  | cons y ys ih =>
    intro h
    rw [List.pairwise_cons] at h
    obtain ⟨ hy, hys⟩ := h
    by_cases hxy : key x ≤ key y
    · simp only [insertDesc, if_pos hxy]
      rw [List.pairwise_cons]
      refine ⟨ fun b hb => ?_, ih hys⟩
      rcases (mem_insertDesc key x b ys).1 hb with rfl | hbmem
      · exact hxy
      · exact hy b hbmem
    · simp only [insertDesc, if_neg hxy]
      rw [List.pairwise_cons]
      refine ⟨ fun b hb => ?_, ?_⟩
      · rcases List.mem_cons.1 hb with rfl | hbmem
        · omega
        · have := hy b hbmem
          omega
      · rw [List.pairwise_cons]
        exact ⟨ hy, hys⟩

theorem pairwise_sortDesc {α : Type} (key : α → Nat) :
    ∀ l : List α, (sortDesc key l).Pairwise (fun a b => key b ≤ key a) := by
  intro l
  induction l with
  | nil => simp [sortDesc]
  | cons x xs ih => exact pairwise_insertDesc key x _ ih

/-- Any per-entry property established by `ensureUser` and preserved by
`addActivity` holds for every entry `applyItem` produces. -/
theorem applyItem_inv (P : UserEntry → Prop)
    (hfresh : ∀ u login, P (freshEntry u login))
    (hadd : ∀ e ty date p ti li, P e → P (addActivity e ty date p ti li))
    (users : List UserEntry) (ty : AType) (points date : Nat)
    (it : GitHubItem) (husers : ∀ e ∈ users, P e) :
    ∀ e ∈ applyItem users ty points date it, P e := by
  intro e he
  cases hlogin : it.user.login with
  | none =>
    simp only [applyItem, hlogin] at he
    exact husers e he
  | some login =>
    simp only [applyItem, hlogin] at he
    by_cases hany : users.any (fun e => decide (e.username = login))
    · rw [if_pos hany] at he
      obtain ⟨ e0, he0, rfl⟩ := List.mem_map.1 he
      by_cases heq : e0.username = login
      · simpa [heq] using hadd _ _ _ _ _ _ (husers e0 he0)
      · simpa [heq] using husers e0 he0
    · rw [if_neg hany] at he
      rcases List.mem_append.1 he with hmem | hmem
      · exact husers e hmem
      · rcases List.mem_singleton.1 hmem with rfl
        exact hadd _ _ _ _ _ _ (hfresh _ _)

theorem foldItems_inv (P : UserEntry → Prop)
    (hfresh : ∀ u login, P (freshEntry u login))
    (hadd : ∀ e ty date p ti li, P e → P (addActivity e ty date p ti li))
    (ty : AType) (points : Nat) (dateOf : GitHubItem → Nat) :
    ∀ (items : List GitHubItem) (users : List UserEntry),
      (∀ e ∈ users, P e) → ∀ e ∈ foldItems ty points dateOf users items, P e := by
  intro items
  induction items with
  | nil => intro users h; simpa [foldItems] using h
  | cons it rest ih =>
    intro users h e he
    rw [foldItems, List.foldl_cons] at he
    by_cases hb : isBotUser it.user
    · rw [if_pos hb] at he
      exact ih users h e he
    · rw [if_neg hb] at he
      exact ih _ (applyItem_inv P hfresh hadd users ty points (dateOf it) it h) e he

theorem generateYear_inv (P : UserEntry → Prop)
    (hfresh : ∀ u login, P (freshEntry u login))
    (hadd : ∀ e ty date p ti li, P e → P (addActivity e ty date p ti li)) :
    ∀ L1 L2 L3 : List GitHubItem, ∀ e ∈ generateYear L1 L2 L3, P e := by
  intro L1 L2 L3 e he
  simp only [generateYear] at he
  rw [mem_sortDesc] at he
  have he2 := (List.mem_filter.1 he).1
  exact foldItems_inv P hfresh hadd _ _ _ L3 _
    (foldItems_inv P hfresh hadd _ _ _ L2 _
      (foldItems_inv P hfresh hadd _ _ _ L1 [] (by simp)))
    e he2

theorem sumBd_bumpBreakdown {κ : Type} [DecidableEq κ] :
    ∀ (bd : List (κ × Bucket)) (ty : κ) (p : Nat),
      sumBd (bumpBreakdown bd ty p) = sumBd bd + p := by
  intro bd ty p
  induction bd with
  | nil => simp [bumpBreakdown, sumBd]
  | cons tb rest ih =>
    obtain ⟨ t, b⟩ := tb
    by_cases h : t = ty
    · simp only [bumpBreakdown, if_pos h, sumBd, List.map_cons, List.sum_cons]
      omega
    · simp only [bumpBreakdown, if_neg h, sumBd, List.map_cons, List.sum_cons] at *
      omega

theorem pointsInv_fresh (u : GHUser) (login : String) :
    pointsInv (freshEntry u login) := by
  simp [pointsInv, freshEntry, sumBd, sumRaw]

theorem pointsInv_add (e : UserEntry) (ty : AType) (date p : Nat)
    (ti li : Option String) (h : pointsInv e) :
    pointsInv (addActivity e ty date p ti li) := by
  obtain ⟨ h1, h2⟩ := h
  constructor
  · simp [addActivity, sumBd_bumpBreakdown, h1]
  · simp [addActivity, sumRaw, h2]

theorem foldl_rebuildStep :
    ∀ (acts : List RawActivity) (acc : Nat × List (AType × Bucket) × List Daily),
      (acts.foldl rebuildStep acc).1 = acc.1 + sumRaw acts ∧
      sumBd (acts.foldl rebuildStep acc).2.1 = sumBd acc.2.1 + sumRaw acts := by
  intro acts
  induction acts with
  | nil => intro acc; simp [sumRaw]
  | cons a rest ih =>
    intro acc
    rw [List.foldl_cons]
    obtain ⟨ ih1, ih2⟩ := ih (rebuildStep acc a)
    refine ⟨ ?_, ?_⟩
    · rw [ih1]
      simp only [rebuildStep, sumRaw, List.map_cons, List.sum_cons]
      omega
    · rw [ih2]
      simp only [rebuildStep, sumBd_bumpBreakdown, sumRaw, List.map_cons, List.sum_cons]
      omega

/-- Main invariant of the chunking loop: with positive step and enough fuel,
the produced sub-ranges, read half-open, cover each value of
`[cursor, stop)` exactly once, and each sub-range sits inside
`[cursor, stop)` and is non-degenerate. -/
theorem chunksAux_spec (step : Nat) (hstep : 0 < step) :
    ∀ (fuel cursor stop : Nat), stop - cursor ≤ fuel →
      (∀ d : Nat,
        (chunksAux step fuel cursor stop).countP
            (fun c => decide (c.1 ≤ d ∧ d < c.2)) =
          if cursor ≤ d ∧ d < stop then 1 else 0) ∧
      (∀ c ∈ chunksAux step fuel cursor stop,
        cursor ≤ c.1 ∧ c.1 < c.2 ∧ c.2 ≤ stop) := by
  intro fuel
  induction fuel with
  | zero =>
    intro cursor stop hf
    refine ⟨ fun d => ?_, by simp [chunksAux]⟩
    rw [if_neg (by omega)]
    simp [chunksAux]
  | succ n ih =>
    intro cursor stop hf
    by_cases hc : cursor < stop
    · simp only [chunksAux, if_pos hc]
      set upto := if stop < cursor + step then stop else cursor + step with hupto
      have h1 : cursor < upto := by rw [hupto]; split <;> omega
      have h2 : upto ≤ stop := by rw [hupto]; split <;> omega
      have h3 : stop - upto ≤ n := by omega
      obtain ⟨ ihc, ihm⟩ := ih upto stop h3
      constructor
      · intro d
        rw [List.countP_cons, ihc d]
        simp only [decide_eq_true_eq]
        split_ifs <;> omega
      · intro c hcm
        rcases List.mem_cons.1 hcm with rfl | hmem
        · exact ⟨ Nat.le_refl _, h1, h2⟩
        · obtain ⟨ m1, m2, m3⟩ := ihm c hmem
          exact ⟨ by omega, m2, m3⟩
    · simp only [chunksAux, if_neg hc]
      refine ⟨ fun d => ?_, by simp⟩
      rw [if_neg (by omega)]
      simp

/-! ### Trace shape of the fetcher

`ShapeOk` says every request in a trace succeeded and was immediately
followed by the mandatory 2.5 s sleep; `FetchShape` relates the trace of a
fetch to its result: a successful fetch has a `ShapeOk` trace, a failed one
has a `ShapeOk` prefix followed by exactly the failing request (no sleep,
nothing else after it), and the error returned is that request's error. -/

theorem shapeOk_nil (resp : Resp) : ShapeOk resp [] := by
  intro i q h
  simp at h

theorem shapeOk_append (resp : Resp) (t1 t2 : List Action)
    (h1 : ShapeOk resp t1) (h2 : ShapeOk resp t2) :
    ShapeOk resp (t1 ++ t2) := by
  intro i q h
  by_cases hi : i < t1.length
  · rw [List.getElem?_append, if_pos hi] at h
    obtain ⟨ hs, hok⟩ := h1 i q h
    have hi1 : i + 1 < t1.length := by
      by_contra hcon
      rw [List.getElem?_eq_none (by omega)] at hs
      exact Option.noConfusion hs
    rw [List.getElem?_append, if_pos hi1]
    exact ⟨ hs, hok⟩
  · rw [List.getElem?_append, if_neg hi] at h
    obtain ⟨ hs, hok⟩ := h2 (i - t1.length) q h
    refine ⟨ ?_, hok⟩
    rw [List.getElem?_append, if_neg (by omega)]
    have hsh : i + 1 - t1.length = (i - t1.length) + 1 := by omega
    rw [hsh]
    exact hs

theorem shapeOk_block (resp : Resp) (q : Query) (items : List GitHubItem)
    (h : resp q = .ok items) :
    ShapeOk resp [Action.http q, Action.sleep 2500] := by
  intro i q' hi
  match i with
  | 0 =>
    simp only [List.getElem?_cons_zero, Option.some.injEq, Action.http.injEq] at hi
    subst hi
    exact ⟨ rfl, by rw [h]; rfl⟩
  | 1 => simp at hi
  | n + 2 => simp at hi

theorem fetchPages_shape (resp : Resp) (qfrom qto : Nat) :
    ∀ (fuel page : Nat), FetchShape resp (fetchPages resp qfrom qto page fuel) := by
  intro fuel
  induction fuel with
  | zero =>
    intro page
    exact Or.inl ⟨ [], rfl, shapeOk_nil resp⟩
  | succ n ih =>
    intro page
    rcases hr : resp ⟨ qfrom, qto, page⟩ with e | items
    · simp only [fetchPages, ghSearch, hr]
      exact Or.inr ⟨ e, [], ⟨ qfrom, qto, page⟩, rfl, rfl, shapeOk_nil resp, hr⟩
    · by_cases hlen : items.length < 100
      · simp only [fetchPages, ghSearch, hr, if_pos hlen]
        exact Or.inl ⟨ items, rfl, shapeOk_block resp _ items hr⟩
      · simp only [fetchPages, ghSearch, hr, if_neg hlen]
        have ihp := ih (page + 1)
        rcases hrec : fetchPages resp qfrom qto (page + 1) n with ⟨ tr2, r2⟩
        rw [hrec] at ihp
        rcases ihp with ⟨ items2, hok2, hsh2⟩ | ⟨ e2, tr', qb, herr2, htr2, hsh2, hqb⟩
        · rcases r2 with e2 | its2
          · exact absurd hok2 (by simp)
          · refine Or.inl ⟨ items ++ its2, ?_, ?_⟩
            · simp only [hrec, Except.map]
            · simp only [hrec]
              exact shapeOk_append resp _ _ (shapeOk_block resp _ items hr) hsh2
        · rcases r2 with e2' | its2
          · have he2 : e2' = e2 := by
              simp only at herr2
              exact Except.error.inj herr2
            subst he2
            refine Or.inr ⟨ e2', [Action.http ⟨ qfrom, qto, page⟩, Action.sleep 2500] ++ tr',
              qb, ?_, ?_, ?_, hqb⟩
            · simp only [hrec, Except.map]
            · simp only [hrec]
              rw [show tr2 = tr' ++ [Action.http qb] from htr2, List.append_assoc]
            · exact shapeOk_append resp _ _ (shapeOk_block resp _ items hr) hsh2
          · exact absurd herr2 (by simp)

theorem fetchChunks_shape (resp : Resp) (fuel : Nat) :
    ∀ cs : List (Nat × Nat), FetchShape resp (fetchChunks resp fuel cs) := by
  intro cs
  induction cs with
  | nil => exact Or.inl ⟨ [], rfl, shapeOk_nil resp⟩
  | cons c rest ih =>
    rcases hp : fetchPages resp c.1 c.2 1 fuel with ⟨ tr1, r1⟩
    have hps := fetchPages_shape resp c.1 c.2 fuel 1
    rw [hp] at hps
    rcases r1 with e1 | items1
    · simp only [fetchChunks, hp]
      exact hps
    · simp only [fetchChunks, hp]
      rcases hps with ⟨ its1, hok1, hsh1⟩ | ⟨ e1', _, _, herr1, _, _, _⟩
      · rcases hc2 : fetchChunks resp fuel rest with ⟨ tr2, r2⟩
        rw [hc2] at ih
        rcases ih with ⟨ items2, hok2, hsh2⟩ | ⟨ e2, tr', qb, herr2, htr2, hsh2, hqb⟩
        · rcases r2 with e2 | its2
          · exact absurd hok2 (by simp)
          · refine Or.inl ⟨ items1 ++ its2, ?_, ?_⟩
            · simp only [hc2, Except.map]
            · simp only [hc2]
              exact shapeOk_append resp _ _ hsh1 hsh2
        · rcases r2 with e2' | its2
          · have he2 : e2' = e2 := by
              simp only at herr2
              exact Except.error.inj herr2
            subst he2
            refine Or.inr ⟨ e2', tr1 ++ tr', qb, ?_, ?_, ?_, hqb⟩
            · simp only [hc2, Except.map]
            · simp only [hc2]
              rw [show tr2 = tr' ++ [Action.http qb] from htr2, List.append_assoc]
            · exact shapeOk_append resp _ _ hsh1 hsh2
          · exact absurd herr2 (by simp)
      · exact absurd herr1 (by simp)

theorem mem_httpCalls (q : Query) (tr : List Action) :
    q ∈ httpCalls tr ↔ ∃ i : Nat, tr[i]? = some (Action.http q) := by
  rw [httpCalls, List.mem_filterMap]
  constructor
  · rintro ⟨ a, ha, hma⟩
    cases a with
    | http q' =>
      simp only [Option.some.injEq] at hma
      subst hma
      exact List.mem_iff_getElem?.1 ha
    | sleep ms => simp at hma
  · rintro ⟨ i, hi⟩
    exact ⟨ Action.http q, (@List.mem_iff_getElem? Action (Action.http q) tr).2 ⟨ i, hi⟩, rfl⟩

theorem bumpDaily_lookup_same :
    ∀ (l : List Daily) (day p : Nat),
      dayLookup (bumpDaily l day p) day =
        some (match dayLookup l day with
              | some x => ⟨ x.date, x.count + 1, x.points + p⟩
              | none => ⟨ day, 1, p⟩) := by
  intro l day p
  induction l with
  | nil => simp [bumpDaily, dayLookup]
  | cons d0 rest ih =>
    by_cases h : d0.date = day
    · simp [bumpDaily, dayLookup, h]
    · simp only [bumpDaily, if_neg h, dayLookup]
      exact ih

theorem bumpDaily_lookup_other :
    ∀ (l : List Daily) (day p d : Nat), d ≠ day →
      dayLookup (bumpDaily l day p) d = dayLookup l d := by
  intro l day p d hne
  induction l with
  | nil =>
    simp only [bumpDaily, dayLookup]
    rw [if_neg (fun hh => hne hh.symm)]
  | cons d0 rest ih =>
    by_cases h : d0.date = day
    · have hd : ¬ d0.date = d := by
        rw [h]
        exact fun hh => hne hh.symm
      simp only [bumpDaily, if_pos h, dayLookup]
      rw [if_neg hd, if_neg hd]
    · by_cases h2 : d0.date = d
      · simp only [bumpDaily, if_neg h, dayLookup]
        rw [if_pos h2, if_pos h2]
      · simp only [bumpDaily, if_neg h, dayLookup]
        rw [if_neg h2, if_neg h2]
        exact ih

theorem dailyDates_bumpDaily :
    ∀ (l : List Daily) (day p : Nat),
      dailyDates (bumpDaily l day p) =
        if day ∈ dailyDates l then dailyDates l else dailyDates l ++ [day] := by
  intro l day p
  induction l with
  | nil => simp [bumpDaily, dailyDates]
  | cons d0 rest ih =>
    by_cases h : d0.date = day
    · simp [bumpDaily, dailyDates, h]
    · have hne : ¬ day = d0.date := fun hh => h hh.symm
      have hcons : dailyDates (bumpDaily (d0 :: rest) day p) =
          d0.date :: dailyDates (bumpDaily rest day p) := by
        simp [bumpDaily, h, dailyDates]
      have hcons2 : dailyDates (d0 :: rest) = d0.date :: dailyDates rest := by
        simp [dailyDates]
      rw [hcons, hcons2, ih]
      by_cases hmem : day ∈ dailyDates rest
      · rw [if_pos hmem, if_pos (List.mem_cons_of_mem _ hmem)]
      · have hnotin : day ∉ d0.date :: dailyDates rest := by
          intro hc
          rcases List.mem_cons.1 hc with hc1 | hc2
          · exact hne hc1
          · exact hmem hc2
        rw [if_neg hmem, if_neg hnotin]
        simp

theorem dailyInv_fresh (u : GHUser) (login : String) :
    dailyInv (freshEntry u login) := by
  simp [dailyInv, freshEntry, dailyDates]

theorem dailyInv_add (e : UserEntry) (ty : AType) (date p : Nat)
    (ti li : Option String) (h : dailyInv e) :
    dailyInv (addActivity e ty date p ti li) := by
  unfold dailyInv at h ⊢
  simp only [addActivity]
  rw [dailyDates_bumpDaily]
  split_ifs with hmem
  · exact h
  · rw [List.nodup_append]
    refine ⟨ h, List.nodup_singleton _, ?_⟩
    intro a ha hb
    simp only [List.mem_singleton] at hb
    subst hb
    exact hmem ha

theorem mem_derivePeriod (src : List UserEntry) (cutoff : Nat) (d : DerivedEntry) :
    d ∈ derivePeriod src cutoff ↔ ∃ e ∈ src, deriveEntry cutoff e = some d := by
  rw [derivePeriod, mem_sortDesc, List.mem_filterMap]

theorem deriveEntry_some (cutoff : Nat) (e : UserEntry) (d : DerivedEntry)
    (h : deriveEntry cutoff e = some d) :
    e.raw_activities.filter (fun a => decide (cutoff ≤ a.occured_at)) ≠ [] ∧
    d.username = e.username ∧
    d.total_points =
      (rebuildTotals (e.raw_activities.filter (fun a => decide (cutoff ≤ a.occured_at)))).1 ∧
    d.activity_breakdown =
      (rebuildTotals (e.raw_activities.filter (fun a => decide (cutoff ≤ a.occured_at)))).2.1 ∧
    d.daily_activity =
      (rebuildTotals (e.raw_activities.filter (fun a => decide (cutoff ≤ a.occured_at)))).2.2 ∧
    d.activities =
      (e.raw_activities.filter (fun a => decide (cutoff ≤ a.occured_at))).map
        (toDerivedActivity e) := by
  simp only [deriveEntry] at h
  split at h
  · exact absurd h (by simp)
  · rw [Option.some.injEq] at h
    subst h
    refine ⟨ ?_, rfl, rfl, rfl, rfl, rfl⟩
    rename_i hne
    intro hnil
    rw [hnil] at hne
    exact hne rfl

theorem foldItems_filter_bots (ty : AType) (points : Nat)
    (dateOf : GitHubItem → Nat) :
    ∀ (items : List GitHubItem) (users : List UserEntry),
      foldItems ty points dateOf users
          (items.filter (fun it => !isBotUser it.user)) =
        foldItems ty points dateOf users items := by
  intro items
  induction items with
  | nil => intro users; rfl
  | cons it rest ih =>
    intro users
    by_cases hb : isBotUser it.user
    · simpa [foldItems, List.filter_cons, hb] using ih users
    · simpa [foldItems, List.filter_cons, hb] using
        ih (applyItem users ty points (dateOf it) it)

end Leaderboard


/-!
## The claims
-/

/-- C1: in every produced document — the canonical year document and every
derived period document — each contributor entry's `total_points` equals the
sum of points over the buckets of `activity_breakdown`, which equals the sum
of points over the raw activity log (for derived periods, over the filtered
activity list). -/
theorem C1_total_points_consistency :
    (∀ L1 L2 L3 : List Leaderboard.GitHubItem,
      ∀ e ∈ Leaderboard.generateYear L1 L2 L3,
        e.total_points = Leaderboard.sumBd e.activity_breakdown ∧
        e.total_points = Leaderboard.sumRaw e.raw_activities) ∧
    (∀ (src : List Leaderboard.UserEntry) (cutoff : Nat),
      ∀ d ∈ Leaderboard.derivePeriod src cutoff,
        d.total_points = Leaderboard.sumBd d.activity_breakdown ∧
        d.total_points = Leaderboard.sumActs d.activities) := by
  constructor
  · intro L1 L2 L3
    exact Leaderboard.generateYear_inv Leaderboard.pointsInv
      Leaderboard.pointsInv_fresh
      (fun e ty date p ti li => Leaderboard.pointsInv_add e ty date p ti li)
      L1 L2 L3
  · intro src cutoff d hd
    obtain ⟨ e, he, hde⟩ := (Leaderboard.mem_derivePeriod src cutoff d).1 hd
    obtain ⟨ hne, hu, ht, hb, hdl, ha⟩ := Leaderboard.deriveEntry_some cutoff e d hde
    set acts := e.raw_activities.filter (fun a => decide (cutoff ≤ a.occured_at)) with hacts
    obtain ⟨ f1, f2⟩ := Leaderboard.foldl_rebuildStep acts (0, [], [])
    have e1 : (Leaderboard.rebuildTotals acts).1 = Leaderboard.sumRaw acts := by
      rw [Leaderboard.rebuildTotals]
      simpa using f1
    have e2 : Leaderboard.sumBd (Leaderboard.rebuildTotals acts).2.1 =
        Leaderboard.sumRaw acts := by
      rw [Leaderboard.rebuildTotals]
      simpa [Leaderboard.sumBd] using f2
    refine ⟨ ?_, ?_⟩
    · rw [ht, hb, e1, e2]
    · rw [ht, ha, e1]
      simp only [Leaderboard.sumActs, Leaderboard.sumRaw, List.map_map]
      rfl

/-- Witness for C1 at a concrete input: one PR-opened event by one human
contributor, aggregated and then derived with cutoff 50. -/
theorem C1_total_points_consistency_witness :
    (entryAlice ∈ Leaderboard.generateYear [itAlice] [] []) ∧
    entryAlice.total_points = Leaderboard.sumBd entryAlice.activity_breakdown ∧
    (derivedAlice ∈ Leaderboard.derivePeriod [entryAlice] 50) ∧
    derivedAlice.total_points = Leaderboard.sumActs derivedAlice.activities := by
  refine ⟨ by decide, ?_, by decide, ?_⟩
  · exact (C1_total_points_consistency.1 [itAlice] [] [] entryAlice (by decide)).1
  · exact (C1_total_points_consistency.2 [entryAlice] 50 derivedAlice (by decide)).2

/-- C2: for `start < stop` and positive step, the sub-ranges
`searchByDateChunks` queries, read half-open `[from, to)`, cover
`[start, stop)` with no gaps and no overlaps — each value lies in exactly
one queried sub-range — and every sub-range, in particular the final clamped
one, ends at or before `stop`. -/
theorem C2_chunks_partition (start stop step : Nat)
    (hstep : 0 < step) (hlt : start < stop) :
    (∀ d : Nat,
      (Leaderboard.searchChunks start stop step).countP
          (fun c => decide (c.1 ≤ d ∧ d < c.2)) =
        if start ≤ d ∧ d < stop then 1 else 0) ∧
    (∀ c ∈ Leaderboard.searchChunks start stop step, c.2 ≤ stop) := by
  unfold Leaderboard.searchChunks
  obtain ⟨ h1, h2⟩ :=
    Leaderboard.chunksAux_spec step hstep (stop - start) start stop (Nat.le_refl _)
  exact ⟨ h1, fun c hc => (h2 c hc).2.2⟩

/-- Witness for C2: chunking `[0, 10)` by 7 gives `[(0,7), (7,10)]`, and the
value 8 is covered exactly once. -/
theorem C2_chunks_partition_witness :
    (0 : Nat) < 7 ∧ (0 : Nat) < 10 ∧
    (Leaderboard.searchChunks 0 10 7).countP
        (fun c => decide (c.1 ≤ 8 ∧ 8 < c.2)) = 1 := by
  refine ⟨ by decide, by decide, ?_⟩
  have h := (C2_chunks_partition 0 10 7 (by decide) (by decide)).1 8
  simpa using h

/-- C3: after deriving with cutoff `c` from a canonical entry list with
distinct usernames, every derived contributor's activity list is non-empty
and lies entirely at/after `c`; a canonical contributor whose filtered list
is empty is absent from the derived document; every derived entry's total,
breakdown and daily activity equal the values rebuilt from the filtered
list; and the result is sorted descending by the rebuilt totals. -/
theorem C3_derive_period (src : List Leaderboard.UserEntry) (cutoff : Nat)
    (hnd : (src.map (fun e => e.username)).Nodup) :
    (∀ d ∈ Leaderboard.derivePeriod src cutoff,
      d.activities ≠ [] ∧ ∀ a ∈ d.activities, cutoff ≤ a.occured_at) ∧
    (∀ e ∈ src,
      e.raw_activities.filter (fun a => decide (cutoff ≤ a.occured_at)) = [] →
      ∀ d ∈ Leaderboard.derivePeriod src cutoff, d.username ≠ e.username) ∧
    (∀ d ∈ Leaderboard.derivePeriod src cutoff, ∃ e ∈ src,
      Leaderboard.deriveEntry cutoff e = some d ∧
      d.total_points = Leaderboard.sumRaw
        (e.raw_activities.filter (fun a => decide (cutoff ≤ a.occured_at))) ∧
      d.activity_breakdown = (Leaderboard.rebuildTotals
        (e.raw_activities.filter (fun a => decide (cutoff ≤ a.occured_at)))).2.1 ∧
      d.daily_activity = (Leaderboard.rebuildTotals
        (e.raw_activities.filter (fun a => decide (cutoff ≤ a.occured_at)))).2.2 ∧
      d.activities = (e.raw_activities.filter
        (fun a => decide (cutoff ≤ a.occured_at))).map
          (Leaderboard.toDerivedActivity e)) ∧
    (Leaderboard.derivePeriod src cutoff).Pairwise
      (fun a b => b.total_points ≤ a.total_points) := by
  refine ⟨ ?_, ?_, ?_, ?_⟩
  · intro d hd
    obtain ⟨ e, he, hde⟩ := (Leaderboard.mem_derivePeriod src cutoff d).1 hd
    obtain ⟨ hne, hu, ht, hb, hdl, ha⟩ := Leaderboard.deriveEntry_some cutoff e d hde
    constructor
    · rw [ha]
      intro hnil
      exact hne (List.map_eq_nil_iff.1 hnil)
    · intro a hamem
      rw [ha] at hamem
      obtain ⟨ a0, ha0, rfl⟩ := List.mem_map.1 hamem
      have hdec := (List.mem_filter.1 ha0).2
      simpa [Leaderboard.toDerivedActivity] using of_decide_eq_true hdec
  · intro e he hfilter d hd heq
    obtain ⟨ e', he', hde'⟩ := (Leaderboard.mem_derivePeriod src cutoff d).1 hd
    obtain ⟨ hne', hu', _, _, _, _⟩ := Leaderboard.deriveEntry_some cutoff e' d hde'
    have huu : e'.username = e.username := by rw [← hu', heq]
    have hee : e' = e := List.inj_on_of_nodup_map hnd he' he huu
    subst hee
    rw [hfilter] at hne'
    exact hne' rfl
  · intro d hd
    obtain ⟨ e, he, hde⟩ := (Leaderboard.mem_derivePeriod src cutoff d).1 hd
    obtain ⟨ hne, hu, ht, hb, hdl, ha⟩ := Leaderboard.deriveEntry_some cutoff e d hde
    set acts := e.raw_activities.filter (fun a => decide (cutoff ≤ a.occured_at)) with hacts
    obtain ⟨ f1, f2⟩ := Leaderboard.foldl_rebuildStep acts (0, [], [])
    have e1 : (Leaderboard.rebuildTotals acts).1 = Leaderboard.sumRaw acts := by
      rw [Leaderboard.rebuildTotals]
      simpa using f1
    exact ⟨ e, he, hde, by rw [ht, e1], hb, hdl, ha⟩
  · unfold Leaderboard.derivePeriod
    exact Leaderboard.pairwise_sortDesc _ _

/-- Witness for C3 at a concrete input. -/
theorem C3_derive_period_witness :
    (([entryAlice].map (fun e => e.username)).Nodup) ∧
    (derivedAlice ∈ Leaderboard.derivePeriod [entryAlice] 50) ∧
    derivedAlice.activities ≠ [] := by
  refine ⟨ by decide, by decide, ?_⟩
  exact ((C3_derive_period [entryAlice] 50 (by decide)).1 derivedAlice (by decide)).1

/-- C4 counterexample: the per-period generator (`generateLeaderboard.ts`),
one of the claim's cited aggregators, appends one `daily_activity` element
per event, so an entry it produces from two same-day events of the same
contributor holds two elements with the same calendar date. -/
theorem C4_counterexample :
    ∃ e ∈ GenLB.generate [itBob, itBob] [] [],
      ¬ ((e.daily_activity.map (fun d => d.date)).Nodup) :=
  ⟨ entryBob, by decide, by decide⟩

/-- C4 (amended): in entries produced by the canonical year generator,
`daily_activity` has at most one element per calendar date, and the
canonical `addActivity` folds a same-day event into the existing element by
adding its count and points, leaving other dates untouched; the per-period
generator in `generateLeaderboard.ts` instead appends one element per event,
so its entries may carry several elements for one date. -/
theorem C4_daily_at_most_one_per_date :
    (∀ L1 L2 L3 : List Leaderboard.GitHubItem,
      ∀ e ∈ Leaderboard.generateYear L1 L2 L3,
        (Leaderboard.dailyDates e.daily_activity).Nodup) ∧
    (∀ (e : Leaderboard.UserEntry) (ty : Leaderboard.AType) (date p : Nat)
        (ti li : Option String),
      Leaderboard.dayLookup
          (Leaderboard.addActivity e ty date p ti li).daily_activity
          (Leaderboard.tsDay date) =
        some (match Leaderboard.dayLookup e.daily_activity (Leaderboard.tsDay date) with
              | some x => ⟨ x.date, x.count + 1, x.points + p⟩
              | none => ⟨ Leaderboard.tsDay date, 1, p⟩) ∧
      ∀ d : Nat, d ≠ Leaderboard.tsDay date →
        Leaderboard.dayLookup
            (Leaderboard.addActivity e ty date p ti li).daily_activity d =
          Leaderboard.dayLookup e.daily_activity d) := by
  constructor
  · intro L1 L2 L3
    exact Leaderboard.generateYear_inv Leaderboard.dailyInv
      Leaderboard.dailyInv_fresh
      (fun e ty date p ti li => Leaderboard.dailyInv_add e ty date p ti li)
      L1 L2 L3
  · intro e ty date p ti li
    constructor
    · simpa [Leaderboard.addActivity] using
        Leaderboard.bumpDaily_lookup_same e.daily_activity (Leaderboard.tsDay date) p
    · intro d hd
      simpa [Leaderboard.addActivity] using
        Leaderboard.bumpDaily_lookup_other e.daily_activity (Leaderboard.tsDay date) p d hd

/-- Witness for the amended C4 at a concrete input. -/
theorem C4_daily_at_most_one_per_date_witness :
    (entryAlice ∈ Leaderboard.generateYear [itAlice] [] []) ∧
    (Leaderboard.dailyDates entryAlice.daily_activity).Nodup ∧
    (3 : Nat) ≠ Leaderboard.tsDay 864000005 ∧
    Leaderboard.dayLookup
        (Leaderboard.addActivity entryAlice Leaderboard.AType.issueOpened
          864000005 1 none none).daily_activity 3 =
      Leaderboard.dayLookup entryAlice.daily_activity 3 := by
  refine ⟨ by decide, ?_, by decide, ?_⟩
  · exact C4_daily_at_most_one_per_date.1 [itAlice] [] [] entryAlice (by decide)
  · exact (C4_daily_at_most_one_per_date.2 entryAlice
      Leaderboard.AType.issueOpened 864000005 1 none none).2 3 (by decide)

/-- C5: events whose actor fails the human-user checks — account type other
than `"User"`, login ending in `"[bot]"`, or absent login — contribute
nothing to any entry: the year generator's output is unchanged when those
events are removed up front, i.e. they are skipped silently. -/
theorem C5_bot_events_excluded (L1 L2 L3 : List Leaderboard.GitHubItem) :
    Leaderboard.generateYear L1 L2 L3 =
      Leaderboard.generateYear
        (L1.filter (fun it => !Leaderboard.isBotUser it.user))
        (L2.filter (fun it => !Leaderboard.isBotUser it.user))
        (L3.filter (fun it => !Leaderboard.isBotUser it.user)) := by
  simp only [Leaderboard.generateYear, Leaderboard.foldItems_filter_bots]

/-- C6: spec-modelled freshness classification (the controller has no source
file in the tree): with `ttl ≤ ceil`, an artifact of age `a` is fresh iff
`a < ttl`, stale iff `ttl ≤ a < ceil`, expired iff `a ≥ ceil`; a missing
record is expired; the three states are exhaustive (and, by the iffs,
mutually exclusive). -/
theorem C6_freshness_classification (ttl ceil : Nat) (hle : ttl ≤ ceil) :
    (∀ a : Nat,
      (Freshness.classify ttl ceil (some a) = Freshness.State.fresh ↔ a < ttl) ∧
      (Freshness.classify ttl ceil (some a) = Freshness.State.stale ↔
        ttl ≤ a ∧ a < ceil) ∧
      (Freshness.classify ttl ceil (some a) = Freshness.State.expired ↔ ceil ≤ a)) ∧
    Freshness.classify ttl ceil none = Freshness.State.expired ∧
    (∀ age : Option Nat,
      Freshness.classify ttl ceil age = Freshness.State.fresh ∨
      Freshness.classify ttl ceil age = Freshness.State.stale ∨
      Freshness.classify ttl ceil age = Freshness.State.expired) := by
  refine ⟨ fun a => ?_, rfl, fun age => ?_⟩
  · by_cases h1 : a < ttl
    · have hc : Freshness.classify ttl ceil (some a) = Freshness.State.fresh := by
        simp [Freshness.classify, h1]
      refine ⟨ ?_, ?_, ?_⟩ <;> rw [hc] <;> simp <;> omega
    · by_cases h2 : a < ceil
      · have hc : Freshness.classify ttl ceil (some a) = Freshness.State.stale := by
          simp [Freshness.classify, h1, h2]
        refine ⟨ ?_, ?_, ?_⟩ <;> rw [hc] <;> simp <;> omega
      · have hc : Freshness.classify ttl ceil (some a) = Freshness.State.expired := by
          simp [Freshness.classify, h1, h2]
        refine ⟨ ?_, ?_, ?_⟩ <;> rw [hc] <;> simp <;> omega
  · match age with
    | none => exact Or.inr (Or.inr rfl)
    | some a =>
      simp only [Freshness.classify]
      split_ifs <;> simp

/-- Witness for C6: a 2-hour-old artifact with a 1-hour TTL and a 24-hour
ceiling is stale. -/
theorem C6_freshness_classification_witness :
    (3600 : Nat) ≤ 86400 ∧
    Freshness.classify 3600 86400 (some 7200) = Freshness.State.stale :=
  ⟨ by decide,
    ((C6_freshness_classification 3600 86400 (by decide)).1 7200).2.1.mpr (by decide)⟩

/-- C7: if the fetch of a category fails, the error it fails with is the
status-and-body error of one of the requests it actually issued, and no
items are delivered (the result is the error alone); if it returns items,
every issued request had a success status — so any non-success response
aborts the whole fetch and discards partial results. -/
theorem C7_http_error_aborts_fetch (resp : Leaderboard.Resp)
    (start stop step fuel : Nat) :
    (∀ (tr : List Leaderboard.Action) (e : Leaderboard.HttpError),
      Leaderboard.searchByDateChunks resp start stop step fuel =
        (tr, Except.error e) →
      ∃ q ∈ Leaderboard.httpCalls tr, resp q = Except.error e) ∧
    (∀ (tr : List Leaderboard.Action) (items : List Leaderboard.GitHubItem),
      Leaderboard.searchByDateChunks resp start stop step fuel =
        (tr, Except.ok items) →
      ∀ q ∈ Leaderboard.httpCalls tr, (resp q).isOk = true) := by
  have hs := Leaderboard.fetchChunks_shape resp fuel
    (Leaderboard.searchChunks start stop step)
  constructor
  · intro tr e heq
    rw [Leaderboard.searchByDateChunks] at heq
    rw [heq] at hs
    rcases hs with ⟨ items, hok, _⟩ | ⟨ e0, tr0, q0, herr, htr, hsh, hq0⟩
    · exact absurd hok (by simp)
    · have he0 : e0 = e := by
        simp only at herr
        exact (Except.error.inj herr).symm
      have hmem : q0 ∈ Leaderboard.httpCalls tr := by
        simp only at htr
        rw [htr, Leaderboard.httpCalls, List.filterMap_append]
        apply List.mem_append_right
        simp
      exact ⟨ q0, hmem, by rw [hq0, he0]⟩
  · intro tr items heq q hq
    rw [Leaderboard.searchByDateChunks] at heq
    rw [heq] at hs
    rcases hs with ⟨ items0, _, hsh⟩ | ⟨ e0, tr0, q0, herr, _, _, _⟩
    · obtain ⟨ i, hi⟩ := (Leaderboard.mem_httpCalls q tr).1 hq
      exact (hsh i q hi).2
    · exact absurd herr (by simp)

/-- Witness for C7: on an oracle that always answers 403, the fetch of
`[0, 5)` returns that error after its first request. -/
theorem C7_http_error_aborts_fetch_witness :
    Leaderboard.searchByDateChunks respFail 0 5 10 3 =
      ([Leaderboard.Action.http ⟨ 0, 5, 1⟩], Except.error ⟨ 403, "rate limited"⟩) ∧
    respFail ⟨ 0, 5, 1⟩ = Except.error ⟨ 403, "rate limited"⟩ := by
  refine ⟨ rfl, ?_⟩
  obtain ⟨ q, hqmem, hq⟩ := (C7_http_error_aborts_fetch respFail 0 5 10 3).1
    [Leaderboard.Action.http ⟨ 0, 5, 1⟩] ⟨ 403, "rate limited"⟩ rfl
  have hq15 : q = ⟨ 0, 5, 1⟩ := by
    simpa [Leaderboard.httpCalls] using hqmem
  rw [← hq15]
  exact hq

/-- C8 counterexample: the claim says the 2.5 s delay follows every HTTP
call regardless of outcome, but on a failing request `ghSearch` throws
before the throttle line, so the trace ends with the HTTP call and nothing —
in particular no sleep — follows it. -/
theorem C8_counterexample :
    ¬ (∀ (i : Nat) (q : Leaderboard.Query),
        (Leaderboard.searchByDateChunks respFail 0 5 10 3).1[i]? =
          some (Leaderboard.Action.http q) →
        (Leaderboard.searchByDateChunks respFail 0 5 10 3).1[i + 1]? =
          some (Leaderboard.Action.sleep 2500)) := by
  intro h
  have hx := h 0 ⟨ 0, 5, 1⟩ rfl
  exact absurd hx (by decide)

/-- C8 (amended): the fixed 2.5 s delay is enforced after every HTTP call
that returns a success status, before any further work; a call that returns
a non-success status raises immediately — no delay follows it and the fetch
does nothing further. -/
theorem C8_sleep_after_success (resp : Leaderboard.Resp)
    (start stop step fuel i : Nat) (q : Leaderboard.Query)
    (hq : (Leaderboard.searchByDateChunks resp start stop step fuel).1[i]? =
      some (Leaderboard.Action.http q)) :
    ((resp q).isOk = true →
      (Leaderboard.searchByDateChunks resp start stop step fuel).1[i + 1]? =
        some (Leaderboard.Action.sleep 2500)) ∧
    (∀ e : Leaderboard.HttpError, resp q = Except.error e →
      (Leaderboard.searchByDateChunks resp start stop step fuel).1[i + 1]? =
        none) := by
  have hs2 : Leaderboard.FetchShape resp
      (Leaderboard.searchByDateChunks resp start stop step fuel) :=
    Leaderboard.fetchChunks_shape resp fuel (Leaderboard.searchChunks start stop step)
  rcases hs2 with ⟨ items0, hok, hsh⟩ | ⟨ e0, tr0, q0, herr, htr0, hsh, hq0⟩
  · obtain ⟨ hsl, hokq⟩ := hsh i q hq
    refine ⟨ fun _ => hsl, fun e he => ?_⟩
    rw [he] at hokq
    simp [Except.isOk, Except.toBool] at hokq
  · rw [htr0] at hq
    by_cases hi : i < tr0.length
    · have hq2 : tr0[i]? = some (Leaderboard.Action.http q) := by
        rw [List.getElem?_append, if_pos hi] at hq
        exact hq
      obtain ⟨ hsl, hokq⟩ := hsh i q hq2
      have hi1 : i + 1 < tr0.length := by
        by_contra hcon
        rw [List.getElem?_eq_none (by omega)] at hsl
        exact Option.noConfusion hsl
      refine ⟨ fun _ => ?_, fun e he => ?_⟩
      · rw [htr0, List.getElem?_append, if_pos hi1]
        exact hsl
      · rw [he] at hokq
        simp [Except.isOk, Except.toBool] at hokq
    · have hieq : i = tr0.length := by
        by_contra hne2
        have hlen : (tr0 ++ [Leaderboard.Action.http q0]).length = tr0.length + 1 := by
          simp
        rw [List.getElem?_eq_none (by rw [hlen]; omega)] at hq
        exact Option.noConfusion hq
      have hqq : q = q0 := by
        rw [List.getElem?_append_right (by omega), hieq] at hq
        simp at hq
        exact hq.symm
      subst hqq
      refine ⟨ fun hok => ?_, fun e he => ?_⟩
      · rw [hq0] at hok
        simp [Except.isOk, Except.toBool] at hok
      · rw [htr0]
        exact List.getElem?_eq_none (by simp [hieq])

/-- Witness for the amended C8: on an all-successful oracle, the single HTTP
call of the fetch of `[0, 5)` is immediately followed by the 2.5 s sleep. -/
theorem C8_sleep_after_success_witness :
    ((Leaderboard.searchByDateChunks respEmpty 0 5 10 3).1[0]? =
      some (Leaderboard.Action.http ⟨ 0, 5, 1⟩)) ∧
    (Leaderboard.searchByDateChunks respEmpty 0 5 10 3).1[1]? =
      some (Leaderboard.Action.sleep 2500) :=
  ⟨ rfl, (C8_sleep_after_success respEmpty 0 5 10 3 0 ⟨ 0, 5, 1⟩ rfl).1 rfl⟩

/-- C9: with `start ≥ stop` (empty or inverted range) the chunk loop never
runs: the fetch issues no requests — the action trace is empty — and returns
the empty list of raw events. -/
theorem C9_empty_range (resp : Leaderboard.Resp) (start stop step fuel : Nat)
    (h : stop ≤ start) :
    Leaderboard.searchByDateChunks resp start stop step fuel =
      ([], Except.ok []) := by
  have hz : stop - start = 0 := Nat.sub_eq_zero_of_le h
  rw [Leaderboard.searchByDateChunks, Leaderboard.searchChunks, hz]
  rfl

/-- Witness for C9 at a concrete inverted range. -/
theorem C9_empty_range_witness :
    (3 : Nat) ≤ 5 ∧
    Leaderboard.searchByDateChunks respEmpty 5 3 30 9 = ([], Except.ok []) :=
  ⟨ by decide, C9_empty_range respEmpty 5 3 30 9 (by decide)⟩

/-- C10: the per-period generator's `addActivity` leaves the entry entirely
unchanged when the event's timestamp is undefined — `total_points`,
`activity_breakdown` and `daily_activity` keep their previous values, and no
error is raised. -/
theorem C10_missing_timestamp_noop (e : GenLB.UserEntry) (ty : String)
    (points : Nat) :
    GenLB.addActivity e ty none points = e := rfl
